import Mathlib

/-!
Shallow embedding of the todoforai/benchmarks repository (Python) in Lean 4,
with theorems checking the natural-language specification against the code.

Components modelled:
* `terminal-bench/todoforai_tbench/config.py` — `TBenchConfig` dataclass,
  `__post_init__` env merging, `next_api_key` round robin, `from_dict`/`to_dict`.
* `adapter/mind2web_adapter.py` — `Task`, `TaskRunner` trajectory recorder,
  `Mind2WebBenchmark` task loader and completion tracking.
* `terminal-bench/todoforai_tbench/agent.py` — `_parse_output` token parsing,
  `perform_task` result construction.
* `terminal-bench/todoforai_tbench/direct_agent.py` — `_extract_command`
  regex-based command extraction.

JSON values are modelled by the inductive `J`; Python dicts by association
lists in insertion order with first-key-wins lookup (a Python dict cannot
hold a duplicate key, so on its image the two agree).
-/

/-- JSON value, as produced by `json.loads`. Numbers are modelled as `Int`
(the repository only ever reads integer token counts and settings). -/
inductive J where
  | str  : String → J
  | num  : Int → J
  | bool : Bool → J
  | null : J
  | arr  : List J → J
  | obj  : List (String × J) → J

/-- Python `d[k] = v` on a dict modelled as an association list: overwrite the
existing key in place (a Python dict keeps the key's original position), else
append the new entry at the end. -/
def dictSet (d : List (String × J)) (k : String) (v : J) : List (String × J) :=
  if d.any (fun kv => kv.1 = k) then d.map (fun kv => if kv.1 = k then (k, v) else kv)
  else d ++ [(k, v)]

/-- Python `d.update(m)`: insert `m`'s entries into `d` in order. -/
def dictUpdate (d m : List (String × J)) : List (String × J) :=
  m.foldl (fun acc kv => dictSet acc kv.1 kv.2) d

namespace Config

/-- Python truthiness of an optional string (`None` and `""` are falsy),
as used by `if env_var:` in `TBenchConfig.__post_init__`. -/
def optTruthy : Option String → Bool
  | none => false
  | some s => s ≠ ""

/-- Python `a or b` on optional strings: returns `a` when truthy, else `b`
(so the result can still be `none` or `some ""`). Models
`os.environ.get(X) or os.environ.get(Y)`. -/
def pyOr (a b : Option String) : Option String :=
  if optTruthy a then a else b

/-- Python whitespace characters recognised by `str.strip()` / `\s` (ASCII:
space, tab, newline, carriage return, vertical tab, form feed). -/
def isPySpace (c : Char) : Bool :=
  c = ' ' || c = '\t' || c = '\n' || c = '\r' || c = Char.ofNat 11 || c = Char.ofNat 12

/-- Python `str.strip()` on a list of characters. -/
def pyStrip (l : List Char) : List Char :=
  ((l.dropWhile isPySpace).reverse.dropWhile isPySpace).reverse

/-- Python `str.strip()` on a `String`. -/
def stripS (s : String) : String :=
  String.mk (pyStrip s.toList)

/-- Python `s.split(sep)` for a one-character separator (`"".split(",")`
is `[""]`). -/
def splitChar (sep : Char) : List Char → List (List Char)
  | [] => [[]]
  | c :: cs =>
    if c = sep then [] :: splitChar sep cs
    else
      match splitChar sep cs with
      | [] => [[c]]
      | r :: rs => (c :: r) :: rs

/-- `[k.strip() for k in keys_str.split(",") if k.strip()]` from
`TBenchConfig.__post_init__` (the `TODOFORAI_API_KEYS` pool). -/
def splitKeys (s : String) : List String :=
  (((splitChar ',' s.toList).map pyStrip).map String.mk).filter (fun k => k ≠ "")

/-- The environment variables consulted by `TBenchConfig.__post_init__`,
each `none` when unset. -/
structure Env where
  todoforai_api_url : Option String := none
  todo4ai_api_url : Option String := none
  todoforai_api_key : Option String := none
  todo4ai_api_key : Option String := none
  todoforai_project_id : Option String := none
  todo4ai_project_id : Option String := none
  todoforai_agent : Option String := none
  todoforai_api_keys : Option String := none

/-- An environment with none of the `TODOFORAI_*`/`TODO4AI_*` variables set. -/
def Env.empty : Env := {}

/-- The `TBenchConfig` dataclass from `config.py`. `_key_counter` is the
internal round-robin index (`_key_lock` only guards it and carries no data,
so it does not appear in the sequential model). -/
structure TBenchConfig where
  api_url : String := "http://localhost:4000"
  api_key : String := ""
  api_keys : List String := []
  default_model : String := "claude-sonnet-4-5"
  default_agent : String := "Agent"
  project_id : Option String := none
  timeout : Int := 600
  max_iterations : Int := 100
  log_dir : String := "./logs"
  verbose : Bool := false
  track_tokens : Bool := true
  extra : List (String × J) := []
  key_counter : Nat := 0

/-- The environment-merging phase of `__post_init__` (everything before the
final sync), written field-wise: the sequential mutations of the Python method
only ever touch distinct fields, except `project_id`, whose two assignment
sites are composed here in order. -/
def applyEnv (env : Env) (c0 : TBenchConfig) : TBenchConfig :=
  let env_api_url := pyOr env.todoforai_api_url env.todo4ai_api_url
  let env_api_key := pyOr env.todoforai_api_key env.todo4ai_api_key
  let env_project_id := pyOr env.todoforai_project_id env.todo4ai_project_id
  let keys_str := env.todoforai_api_keys.getD ""
  -- env_api_url override, else default when empty
  let api_url :=
    if optTruthy env_api_url then env_api_url.getD ""
    else if c0.api_url = "" then "http://localhost:4000"
    else c0.api_url
  -- env_api_key override
  let api_key0 := if optTruthy env_api_key then env_api_key.getD "" else c0.api_key
  -- project_id: env override (empty string clears), else cleared when the
  -- api key came from the environment
  let project_id0 :=
    if env_project_id ≠ none then (if optTruthy env_project_id then env_project_id else none)
    else if optTruthy env_api_key then none
    else c0.project_id
  let default_agent :=
    if optTruthy env.todoforai_agent then env.todoforai_agent.getD "" else c0.default_agent
  -- TODOFORAI_API_KEYS pool; clears project_id unless env set one
  let api_keys0 := if keys_str ≠ "" then splitKeys keys_str else c0.api_keys
  let project_id1 :=
    if keys_str ≠ "" ∧ ¬ optTruthy env_project_id then none else project_id0
  { c0 with api_url := api_url, api_key := api_key0, api_keys := api_keys0,
            default_agent := default_agent, project_id := project_id1 }

/-- The final sync of `__post_init__`: if only one of `api_key`/`api_keys`
is set, populate the other from it (the two branches exclude each other). -/
def syncKeys (c : TBenchConfig) : TBenchConfig :=
  if c.api_key ≠ "" ∧ c.api_keys = [] then { c with api_keys := [c.api_key] }
  else if c.api_keys ≠ [] ∧ c.api_key = "" then { c with api_key := c.api_keys.headD "" }
  else c

/-- `TBenchConfig.__post_init__` in environment `env`. -/
def postInit (env : Env) (c0 : TBenchConfig) : TBenchConfig :=
  syncKeys (applyEnv env c0)

/-- `TBenchConfig.next_api_key`: round-robin over the pool, falling back to
`api_key` when the pool is empty. Returns the key and the updated config
(the Python method mutates `_key_counter` under `_key_lock`). -/
def next_api_key (c : TBenchConfig) : String × TBenchConfig :=
  if c.api_keys = [] then (c.api_key, c)
  else
    (c.api_keys.getD (c.key_counter % c.api_keys.length) "",
     { c with key_counter := c.key_counter + 1 })

/-- The key returned by the `n`-th call (counting from 0) to `next_api_key`,
starting from config `c`. -/
def nthKey (c : TBenchConfig) : Nat → String
  | 0 => (next_api_key c).1
  | n + 1 => nthKey (next_api_key c).2 n

/-- The field names recognised by `TBenchConfig.from_dict`. -/
def knownFields : List String :=
  ["api_url", "api_key", "api_keys", "default_model", "default_agent",
   "project_id", "timeout", "max_iterations", "log_dir", "verbose", "track_tokens"]

/-- Read a string-valued entry of a JSON dict; a missing entry yields the
dataclass default `d`. A Python dataclass would accept a value of any runtime
type here; the typed model treats a value of the wrong JSON shape as missing. -/
def getStrF (data : List (String × J)) (k : String) (d : String) : String :=
  match data.lookup k with
  | some (J.str s) => s
  | _ => d

/-- Read a string-list entry (`api_keys`); non-string elements are dropped
(they cannot occur in a well-formed key pool). -/
def getStrListF (data : List (String × J)) (k : String) : List String :=
  match data.lookup k with
  | some (J.arr l) => l.filterMap (fun v => match v with | J.str s => some s | _ => none)
  | _ => []

/-- Read an integer entry with default `d`. -/
def getIntF (data : List (String × J)) (k : String) (d : Int) : Int :=
  match data.lookup k with
  | some (J.num n) => n
  | _ => d

/-- Read a boolean entry with default `d`. -/
def getBoolF (data : List (String × J)) (k : String) (d : Bool) : Bool :=
  match data.lookup k with
  | some (J.bool b) => b
  | _ => d

/-- Read the optional `project_id` entry (`null` means `None`). -/
def getOptStrF (data : List (String × J)) (k : String) : Option String :=
  match data.lookup k with
  | some (J.str s) => some s
  | _ => none

/-- The constructor arguments `cls(**kwargs)` receives in
`TBenchConfig.from_dict`: each known field read from the dict when present,
the dataclass default otherwise. -/
def fromDictInit (data : List (String × J)) : TBenchConfig :=
  { api_url := getStrF data "api_url" "http://localhost:4000"
    api_key := getStrF data "api_key" ""
    api_keys := getStrListF data "api_keys"
    default_model := getStrF data "default_model" "claude-sonnet-4-5"
    default_agent := getStrF data "default_agent" "Agent"
    project_id := getOptStrF data "project_id"
    timeout := getIntF data "timeout" 600
    max_iterations := getIntF data "max_iterations" 100
    log_dir := getStrF data "log_dir" "./logs"
    verbose := getBoolF data "verbose" false
    track_tokens := getBoolF data "track_tokens" true }

/-- `TBenchConfig.from_dict`: split the dict into known fields and `extra`,
construct the dataclass (running `__post_init__` in environment `env`), then
assign `extra`. -/
def from_dict (env : Env) (data : List (String × J)) : TBenchConfig :=
  { postInit env (fromDictInit data) with
    extra := data.filter (fun kv => ¬ kv.1 ∈ knownFields) }

/-- The dict literal of `TBenchConfig.to_dict` before `**self.extra` is
merged: the known fields in declaration order. -/
def to_dict_base (c : TBenchConfig) : List (String × J) :=
  [("api_url", J.str c.api_url),
   ("api_key", J.str c.api_key),
   ("api_keys", J.arr (c.api_keys.map J.str)),
   ("default_model", J.str c.default_model),
   ("default_agent", J.str c.default_agent),
   ("project_id", match c.project_id with | some s => J.str s | none => J.null),
   ("timeout", J.num c.timeout),
   ("max_iterations", J.num c.max_iterations),
   ("log_dir", J.str c.log_dir),
   ("verbose", J.bool c.verbose),
   ("track_tokens", J.bool c.track_tokens)]

/-- `TBenchConfig.to_dict`: the known fields in declaration order, with
`extra` merged over them (`{..., **self.extra}`). -/
def to_dict (c : TBenchConfig) : List (String × J) :=
  dictUpdate (to_dict_base c) c.extra

end Config

namespace Mind2Web

/-- The `Task` dataclass of `mind2web_adapter.py`. -/
structure Task where
  task_id : String
  description : String
  human_labels : List (String × J) := []

/-- The `Action` dataclass. -/
structure Action where
  action_type : String
  selector : String
  value : Option String := none
  description : Option String := none

/-- `Action.to_mind2web_format` (`if self.value:` is Python truthiness, so an
empty-string value renders without the `: value` suffix). -/
def Action.to_mind2web_format (a : Action) : String :=
  match a.value with
  | some v =>
    if v = "" then "<" ++ a.selector ++ "> -> " ++ a.action_type.toUpper
    else "<" ++ a.selector ++ "> -> " ++ a.action_type.toUpper ++ ": " ++ v
  | none => "<" ++ a.selector ++ "> -> " ++ a.action_type.toUpper

/-- The three runtime shapes `TaskRunner.add_action` accepts (an `Action`
object, a Mind2Web-format string, or a dict). -/
inductive ActionInput where
  | act (a : Action)
  | txt (s : String)
  | dict (d : List (String × J))

/-- Helper for the dict form of `add_action`: `d.get(k)` as a string, with
default `dflt` (a non-string value is modelled as absent). -/
def getS (d : List (String × J)) (k : String) (dflt : String) : String :=
  match d.lookup k with
  | some (J.str s) => s
  | _ => dflt

/-- `d.get(k)` as an optional string. -/
def getOptS (d : List (String × J)) (k : String) : Option String :=
  match d.lookup k with
  | some (J.str s) => some s
  | _ => none

/-- The mutable state of a `TaskRunner` (output paths and timing are kept
outside the model; `start_time`/`end_time` enter `complete` as parameters). -/
structure TaskRunner where
  task : Task
  actions : List String := []
  thoughts : List String := []
  screenshot_count : Nat := 0
  completed : Bool := false

/-- The string `add_action` appends for a given input shape. -/
def ActionInput.stored : ActionInput → String
  | .act a => a.to_mind2web_format
  | .txt s => s
  | .dict d =>
    let a : Action :=
      { action_type := getS d "type" (getS d "action_type" "click")
        selector := getS d "selector" (getS d "element" "")
        value := getOptS d "value"
        description := getOptS d "description" }
    a.to_mind2web_format

/-- `TaskRunner.add_action`: convert the input to its Mind2Web string and
append it to the action history. -/
def add_action (r : TaskRunner) (input : ActionInput) : TaskRunner :=
  { r with actions := r.actions ++ [input.stored] }

/-- `TaskRunner.add_thought`. -/
def add_thought (r : TaskRunner) (t : String) : TaskRunner :=
  { r with thoughts := r.thoughts ++ [t] }

/-- `TaskRunner.screenshot` (only the counter matters to the result document;
the image bytes go to disk). -/
def screenshot (r : TaskRunner) : TaskRunner :=
  { r with screenshot_count := r.screenshot_count + 1 }

/-- One call in the claim's "sequence of add_action, add_thought and
screenshot calls". -/
inductive RunnerCall where
  | action (a : ActionInput)
  | thought (t : String)
  | shot

/-- Apply a sequence of calls to a runner. -/
def runCalls (r : TaskRunner) : List RunnerCall → TaskRunner
  | [] => r
  | .action a :: rest => runCalls (add_action r a) rest
  | .thought t :: rest => runCalls (add_thought r t) rest
  | .shot :: rest => runCalls (screenshot r) rest

/-- The action log a sequence of calls accumulates, in insertion order. -/
def actionLog (calls : List RunnerCall) : List String :=
  calls.filterMap (fun c => match c with | .action a => some a.stored | _ => none)

/-- The thought log a sequence of calls accumulates, in insertion order. -/
def thoughtLog (calls : List RunnerCall) : List String :=
  calls.filterMap (fun c => match c with | .thought t => some t | _ => none)

/-- The number of screenshot calls in a sequence. -/
def shotCount (calls : List RunnerCall) : Nat :=
  calls.countP (fun c => match c with | .shot => true | _ => false)

/-- The initial `result` dict literal built by `TaskRunner.complete`
(`final_response or f"Task {status}"` is Python truthiness: an empty-string
response also falls back to the default). -/
def completeBase (r : TaskRunner) (status : String)
    (final_response : Option String) : List (String × J) :=
  [("task_id", J.str r.task.task_id),
   ("task", J.str r.task.description),
   ("action_history", J.arr (r.actions.map J.str)),
   ("thoughts", J.arr (r.thoughts.map J.str)),
   ("final_result_response",
     J.str (match final_response with
            | some s => if s = "" then "Task " ++ status else s
            | none => "Task " ++ status))]

/-- `if url: result["final_url"] = url` — again Python truthiness. -/
def completeWithUrl (base : List (String × J)) (url : Option String) :
    List (String × J) :=
  match url with
  | some u => if u = "" then base else dictSet base "final_url" (J.str u)
  | none => base

/-- `if metadata: result.update(metadata)` (an empty dict is falsy, and
updating with it changes nothing, so both readings agree). -/
def completeWithMeta (d : List (String × J))
    (metadata : Option (List (String × J))) : List (String × J) :=
  match metadata with
  | some m => dictUpdate d m
  | none => d

/-- `TaskRunner.complete`: build the result document that is written to
`result.json` and returned (the returned dict and the saved dict are one and
the same value, `json.dump(result, f)` on the very object handed back).
`start_time`/`end_time` stand for the `datetime.now().isoformat()` strings;
`_metadata` is set after the metadata update, so it always wins. -/
def complete (r : TaskRunner) (status : String) (final_response : Option String)
    (url : Option String) (metadata : Option (List (String × J)))
    (start_time end_time : String) : List (String × J) :=
  dictSet (completeWithMeta (completeWithUrl (completeBase r status final_response) url) metadata)
    "_metadata"
    (J.obj [("start_time", J.str start_time),
            ("end_time", J.str end_time),
            ("num_actions", J.num (r.actions.length : Int)),
            ("num_screenshots", J.num (r.screenshot_count : Int))])

/-- `Mind2WebBenchmark` state: the loaded task list, the output directory and
a snapshot of which paths exist on disk. -/
structure Benchmark where
  tasks : List Task
  output_dir : String
  file_exists : String → Bool

/-- The per-task result file probed by the completion trackers:
`self.output_dir / task.task_id / "result.json"`. -/
def result_path (b : Benchmark) (t : Task) : String :=
  b.output_dir ++ "/" ++ t.task_id ++ "/result.json"

/-- `Mind2WebBenchmark.get_incomplete_tasks`. -/
def get_incomplete_tasks (b : Benchmark) : List Task :=
  b.tasks.filter (fun t => ! b.file_exists (result_path b t))

/-- `Mind2WebBenchmark.get_completed_tasks`. -/
def get_completed_tasks (b : Benchmark) : List Task :=
  b.tasks.filter (fun t => b.file_exists (result_path b t))

/-- Does the string end with the given suffix (Python `k.endswith(...)`)? -/
def strEnds (s suffix : String) : Bool :=
  suffix.toList.isSuffixOf s.toList

/-- One item of `human_label.json` turned into a `Task` by `_load_tasks`:
`task_id` from `"task_id"`, `description` from `"confirmed_task"`, and
`human_labels` the item's entries whose key ends with `"_human_label"`.
Yields `none` when either required key is missing (Python raises `KeyError`);
a non-string value for the two required keys is modelled as missing. -/
def load_item (item : List (String × J)) : Option Task :=
  match item.lookup "task_id", item.lookup "confirmed_task" with
  | some (J.str tid), some (J.str desc) =>
    some { task_id := tid, description := desc,
           human_labels := item.filter (fun kv => strEnds kv.1 "_human_label") }
  | _, _ => none

/-- `Mind2WebBenchmark._load_tasks` applied to the decoded JSON list: one
`Task` per item, in order; `none` as soon as one item is missing a required
key (Python raises `KeyError` and the whole load fails). -/
def load_tasks : List (List (String × J)) → Option (List Task)
  | [] => some []
  | item :: rest =>
    match load_item item, load_tasks rest with
    | some t, some ts => some (t :: ts)
    | _, _ => none

/-- The claim's per-item description of `_load_tasks`: `task_id` from the
`"task_id"` entry, `description` from `"confirmed_task"`, `human_labels`
exactly the entries whose key ends with `"_human_label"`. -/
def itemTask (item : List (String × J)) : Task :=
  { task_id := getS item "task_id" ""
    description := getS item "confirmed_task" ""
    human_labels := item.filter (fun kv => strEnds kv.1 "_human_label") }

end Mind2Web

namespace Agent

/-- `terminal_bench`'s `AgentResult` as used by `TODOforAIAgent.perform_task`
(only the fields the adapter sets). -/
structure AgentResult where
  input_tokens : Int
  output_tokens : Int
  failure_mode : String

/-- Does `l` start with `pat`? -/
def listStarts (pat : List Char) : List Char → Bool
  | [] => pat = []
  | c :: cs =>
    match pat with
    | [] => true
    | p :: ps => p = c && listStarts ps cs

/-- Python `pat in l` (substring containment). -/
def containsSub (pat : List Char) : List Char → Bool
  | [] => listStarts pat []
  | c :: cs => listStarts pat (c :: cs) || containsSub pat cs

/-- Python `l.split(pat, 1)[1]`: the suffix after the first occurrence of
`pat`, `none` when `pat` does not occur. -/
def afterFirst (pat : List Char) : List Char → Option (List Char)
  | [] => if listStarts pat [] then some [] else none
  | c :: cs =>
    if listStarts pat (c :: cs) then some ((c :: cs).drop pat.length)
    else afterFirst pat cs

/-- `result.get(k, 0)` for an integer count (a non-integer value is modelled
as absent; the runner only ever emits integer token counts). -/
def getNumD (d : List (String × J)) (k : String) : Int :=
  match d.lookup k with
  | some (J.num n) => n
  | _ => 0

/-- The outcome of one loop iteration of `TODOforAIAgent._parse_output` on a
raw line. `parse` stands for `json.loads` restricted to JSON objects (`none`
on a decode error). `some totals` means the method returns with these totals;
`none` means it falls through to the next line. A line that starts with `{`
and mentions `input_tokens` but fails to parse is skipped entirely
(`continue`), so its `TBENCH_RESULT:` branch is never tried. -/
def lineResult (parse : List Char → Option (List (String × J)))
    (rawLine : List Char) : Option (Int × Int) :=
  let line := Config.pyStrip rawLine
  if listStarts ['{'] line ∧ containsSub "input_tokens".toList line then
    match parse line with
    | some obj => some (getNumD obj "input_tokens", getNumD obj "output_tokens")
    | none => none
  else if containsSub "TBENCH_RESULT:".toList line then
    match afterFirst "TBENCH_RESULT:".toList line with
    | some suffix =>
      match parse (Config.pyStrip suffix) with
      | some obj => some (getNumD obj "input_tokens", getNumD obj "output_tokens")
      | none => none
    | none => none
  else none

/-- `TODOforAIAgent._parse_output`: scan `output.split("\n")` in order; the
first line whose `lineResult` yields totals decides them, otherwise both
totals stay 0. -/
def parse_output (parse : List Char → Option (List (String × J)))
    (output : String) : Int × Int :=
  go (Config.splitChar '\n' output.toList)
where
  go : List (List Char) → Int × Int
    | [] => (0, 0)
    | line :: rest =>
      match lineResult parse line with
      | some t => t
      | none => go rest

/-- The claim's reading of one `_parse_output` iteration, formalised from the
spec sentence (for comparison with `lineResult`): a line counts if it either
is a JSON object mentioning `input_tokens`, or carries `TBENCH_RESULT:` as a
prefix with the rest parsing as JSON. -/
def claimedLineResult (parse : List Char → Option (List (String × J)))
    (rawLine : List Char) : Option (Int × Int) :=
  let line := Config.pyStrip rawLine
  if listStarts ['{'] line ∧ containsSub "input_tokens".toList line ∧ (parse line).isSome then
    (parse line).map (fun obj => (getNumD obj "input_tokens", getNumD obj "output_tokens"))
  else if listStarts "TBENCH_RESULT:".toList line then
    (parse (Config.pyStrip (line.drop "TBENCH_RESULT:".toList.length))).map
      (fun obj => (getNumD obj "input_tokens", getNumD obj "output_tokens"))
  else none

/-- `_parse_output` as the claim states it: totals from the first qualifying
line in the claim's sense, defaulting to 0. -/
def parse_output_claimed (parse : List Char → Option (List (String × J)))
    (output : String) : Int × Int :=
  ((Config.splitChar '\n' output.toList).findSome? (claimedLineResult parse)).getD (0, 0)

/-- A concrete stand-in for `json.loads` used to evaluate the two readings on
a concrete captured pane: it decodes exactly one object literal. -/
def parseStub (l : List Char) : Option (List (String × J)) :=
  if String.mk l = "\x7b\"input_tokens\": 3, \"output_tokens\": 4\x7d" then
    some [("input_tokens", J.num 3), ("output_tokens", J.num 4)]
  else none

/-- The `AgentResult` built at the end of `TODOforAIAgent.perform_task`: the
totals parsed from the captured pane text (reset to 0 beforehand) and the
failure mode of the run. The tmux session interaction itself is external. -/
def perform_task_result (parse : List Char → Option (List (String × J)))
    (captured : String) (failure_mode : String) : AgentResult :=
  { input_tokens := (parse_output parse captured).1
    output_tokens := (parse_output parse captured).2
    failure_mode := failure_mode }

end Agent

namespace DirectAgent

/-- Backtick. -/
def tick : Char := Char.ofNat 96

/-- Content strictly before the first occurrence of newline-plus-triple-tick
(the lazy capture `(.*?)` of the pattern stops at the closing fence);
`none` when that closing delimiter never occurs. -/
def takeUntilClose : List Char → Option (List Char)
  | [] => none
  | c :: cs =>
    if c = '\n' ∧ cs.take 3 = [tick, tick, tick] then some []
    else (takeUntilClose cs).map (fun l => c :: l)

/-- Positions `j` such that every character before `j` is Python whitespace
and the character at `j` is a newline: the candidate splits of `\s*\n`
(`\s*` consumes `j` characters, the literal `\n` matches at `j`). Ascending. -/
def nlStarts : List Char → List Nat
  | [] => []
  | c :: cs =>
    if c = '\n' then 0 :: (nlStarts cs).map (fun n => n + 1)
    else if Config.isPySpace c then (nlStarts cs).map (fun n => n + 1)
    else []

/-- Try the candidate splits in the given order (the engine backtracks `\s*`
from longest to shortest): the first `j` after which a closing fence occurs
wins, and the capture is everything strictly between. -/
def tryStarts (tagRest : List Char) : List Nat → Option (List Char)
  | [] => none
  | j :: js =>
    match takeUntilClose (tagRest.drop (j + 1)) with
    | some content => some content
    | none => tryStarts tagRest js

/-- Match the rest of the pattern right after an opening triple backtick,
per Python `re` semantics: the optional tag alternative is committed as a
literal (`bash`, else `sh`, else empty — when the matching alternative fails
later, the empty alternative fails too, since the text then starts with a
non-space letter); then `\s*` backtracks greedily before the literal `\n`;
then the lazy capture stops at the first closing fence. -/
def matchAfterTicks (rest : List Char) : Option (List Char) :=
  let tagRest :=
    if rest.take 4 = "bash".toList then rest.drop 4
    else if rest.take 2 = "sh".toList then rest.drop 2
    else rest
  tryStarts tagRest (nlStarts tagRest).reverse

/-- `re.findall(pattern, response, re.DOTALL)` restricted to the first match:
the engine tries each start position left to right, so the first opening
triple backtick whose fence matches wins. -/
def findFence : List Char → Option (List Char)
  | [] => none
  | c :: cs =>
    if c = tick ∧ cs.take 2 = [tick, tick] then
      match matchAfterTicks (cs.drop 2) with
      | some content => some content
      | none => findFence cs
    else findFence cs

/-- Everything before the first newline (`command.split('\n')[0]`). -/
def firstLine (l : List Char) : List Char := l.takeWhile (fun c => c ≠ '\n')

/-- `TODOforAIDirectAgent._extract_command`: the first matching fenced
block's capture, stripped; when several lines remain, only the first line,
stripped again. `none` when no block matches, so no command is forwarded. -/
def extract_command (response : String) : Option String :=
  (findFence response.toList).map (fun content =>
    let command := Config.pyStrip content
    if command.contains '\n' then String.mk (Config.pyStrip (firstLine command))
    else String.mk command)

end DirectAgent

/-! ## Helper lemmas -/

namespace Config

lemma next_api_key_fields (c : TBenchConfig) :
    (next_api_key c).2.api_key = c.api_key ∧ (next_api_key c).2.api_keys = c.api_keys := by
  unfold next_api_key
  split <;> exact ⟨rfl, rfl⟩

lemma nthKey_of_ne (c : TBenchConfig) (n : Nat) (h : c.api_keys ≠ []) :
    nthKey c n = c.api_keys.getD ((c.key_counter + n) % c.api_keys.length) "" := by
  induction n generalizing c with
  | zero =>
    unfold nthKey next_api_key
    simp [h]
  | succ n ih =>
    unfold nthKey
    rw [show (next_api_key c).2 = { c with key_counter := c.key_counter + 1 } by
      unfold next_api_key; simp [h]]
    rw [ih { c with key_counter := c.key_counter + 1 } h]
    have h1 : c.key_counter + 1 + n = c.key_counter + (n + 1) := by omega
    simp only [h1]

lemma nthKey_of_empty (c : TBenchConfig) (n : Nat) (h : c.api_keys = []) :
    nthKey c n = c.api_key := by
  induction n generalizing c with
  | zero => unfold nthKey next_api_key; simp [h]
  | succ n ih =>
    unfold nthKey
    rw [show (next_api_key c).2 = c by unfold next_api_key; simp [h]]
    exact ih c h

end Config

/-! ## Claim theorems -/

/-- C1: for every `TBenchConfig` whose `api_keys` pool is non-empty, the
`n`-th call (counting from 0 on a freshly constructed config, whose internal
counter is 0) to `next_api_key` returns `api_keys[n % len(api_keys)]`,
cycling round-robin through the pool; for a config whose `api_keys` is
empty, `next_api_key` returns `api_key`. -/
theorem C1_next_api_key_round_robin (c : Config.TBenchConfig) (n : Nat)
    (h0 : c.key_counter = 0) :
    (c.api_keys ≠ [] →
      Config.nthKey c n = c.api_keys.getD (n % c.api_keys.length) "") ∧
    (c.api_keys = [] → Config.nthKey c n = c.api_key) := by
  constructor
  · intro h
    rw [Config.nthKey_of_ne c n h, h0]
    simp
  · intro h
    exact Config.nthKey_of_empty c n h

/-- Witness for C1 at a concrete pool and a concrete empty pool. -/
theorem C1_next_api_key_round_robin_witness :
    Config.nthKey { api_keys := ["a", "b", "c"] : Config.TBenchConfig } 4 = "b" ∧
    Config.nthKey { api_key := "k" : Config.TBenchConfig } 2 = "k" := by
  constructor
  · have h := (C1_next_api_key_round_robin { api_keys := ["a", "b", "c"] } 4 rfl).1
      (by decide)
    exact h.trans (by decide)
  · exact (C1_next_api_key_round_robin { api_key := "k" } 2 rfl).2 rfl

/-- C4: a task of the loaded task list appears in `get_completed_tasks` iff
`<output_dir>/<task_id>/result.json` exists, and in `get_incomplete_tasks`
iff it does not, so the two lists partition the task list preserving its
order. -/
theorem C4_completion_tracking (b : Mind2Web.Benchmark) (t : Mind2Web.Task) :
    (t ∈ Mind2Web.get_completed_tasks b ↔
      t ∈ b.tasks ∧ b.file_exists (Mind2Web.result_path b t) = true) ∧
    (t ∈ Mind2Web.get_incomplete_tasks b ↔
      t ∈ b.tasks ∧ b.file_exists (Mind2Web.result_path b t) = false) ∧
    b.tasks.partition (fun u => b.file_exists (Mind2Web.result_path b u)) =
      (Mind2Web.get_completed_tasks b, Mind2Web.get_incomplete_tasks b) ∧
    (Mind2Web.get_completed_tasks b).Sublist b.tasks ∧
    (Mind2Web.get_incomplete_tasks b).Sublist b.tasks := by
  refine ⟨?_, ?_, ?_, ?_, ?_⟩
  · simp [Mind2Web.get_completed_tasks, List.mem_filter]
  · simp [Mind2Web.get_incomplete_tasks, List.mem_filter]
  · rw [List.partition_eq_filter_filter]
    rfl
  · exact List.filter_sublist _
  · exact List.filter_sublist _

/-- C5: for every list of JSON items each carrying a `"task_id"` and
`"confirmed_task"` key, `_load_tasks` returns one `Task` per item in the
same order, with `task_id` from `"task_id"`, `description` from
`"confirmed_task"`, and `human_labels` exactly the entries whose key ends
with `"_human_label"`. -/
theorem C5_load_tasks (data : List (List (String × J)))
    (h : ∀ item ∈ data,
      (∃ s, item.lookup "task_id" = some (J.str s)) ∧
      (∃ s, item.lookup "confirmed_task" = some (J.str s))) :
    Mind2Web.load_tasks data = some (data.map Mind2Web.itemTask) := by
  induction data with
  | nil => rfl
  | cons item rest ih =>
    obtain ⟨⟨s1, h1⟩, ⟨s2, h2⟩⟩ := h item (List.mem_cons_self _ _)
    have hrest := ih (fun i hi => h i (List.mem_cons_of_mem _ hi))
    simp [Mind2Web.load_tasks, Mind2Web.load_item, Mind2Web.itemTask, Mind2Web.getS,
      h1, h2, hrest]

/-- Witness for C5 on a concrete two-item task file. -/
theorem C5_load_tasks_witness :
    Mind2Web.load_tasks
      [[("task_id", J.str "t1"), ("confirmed_task", J.str "d1"),
        ("gpt4_human_label", J.str "y"), ("other", J.num 1)],
       [("confirmed_task", J.str "d2"), ("task_id", J.str "t2")]] =
    some [{ task_id := "t1", description := "d1",
            human_labels := [("gpt4_human_label", J.str "y")] },
          { task_id := "t2", description := "d2", human_labels := [] }] := by
  have h := C5_load_tasks
    [[("task_id", J.str "t1"), ("confirmed_task", J.str "d1"),
      ("gpt4_human_label", J.str "y"), ("other", J.num 1)],
     [("confirmed_task", J.str "d2"), ("task_id", J.str "t2")]]
    (by
      intro item hi
      simp only [List.mem_cons, List.not_mem_nil, or_false] at hi
      rcases hi with rfl | rfl
      · exact ⟨⟨"t1", rfl⟩, ⟨"d1", rfl⟩⟩
      · exact ⟨⟨"t2", rfl⟩, ⟨"d2", rfl⟩⟩)
  exact h.trans rfl

namespace Config

lemma syncKeys_api_url (c : TBenchConfig) : (syncKeys c).api_url = c.api_url := by
  unfold syncKeys; split_ifs <;> rfl

lemma syncKeys_default_agent (c : TBenchConfig) :
    (syncKeys c).default_agent = c.default_agent := by
  unfold syncKeys; split_ifs <;> rfl

lemma syncKeys_api_key_of_ne (c : TBenchConfig) (h : c.api_key ≠ "") :
    (syncKeys c).api_key = c.api_key := by
  unfold syncKeys
  split_ifs with h1 h2
  · rfl
  · exact absurd h2.2 h
  · rfl

lemma optTruthy_some {v : String} (h : v ≠ "") : optTruthy (some v) = true := by
  simp [optTruthy, h]

end Config

/-- C2: the configuration loader merges a JSON dict and the environment with
the environment taking precedence: whatever the file dict holds, a non-empty
`TODOFORAI_API_KEY` (with `TODO4AI_API_KEY` as fallback, combined by Python
`or`) decides `api_key`, `TODOFORAI_API_URL`/`TODO4AI_API_URL` decides
`api_url`, and `TODOFORAI_AGENT` decides `default_agent`. (Setting a variable
to the empty string is falsy in Python and counts as unset.) -/
theorem C2_env_overrides (data : List (String × J)) (env : Config.Env) :
    (∀ v, Config.pyOr env.todoforai_api_key env.todo4ai_api_key = some v → v ≠ "" →
      (Config.from_dict env data).api_key = v) ∧
    (∀ v, Config.pyOr env.todoforai_api_url env.todo4ai_api_url = some v → v ≠ "" →
      (Config.from_dict env data).api_url = v) ∧
    (∀ v, env.todoforai_agent = some v → v ≠ "" →
      (Config.from_dict env data).default_agent = v) := by
  refine ⟨?_, ?_, ?_⟩
  · intro v hv hne
    show (Config.postInit env _).api_key = v
    unfold Config.postInit
    have ha : ∀ c0, (Config.applyEnv env c0).api_key = v := by
      intro c0
      simp [Config.applyEnv, hv, Config.optTruthy_some hne]
    rw [Config.syncKeys_api_key_of_ne _ (by rw [ha]; exact hne), ha]
  · intro v hv hne
    show (Config.postInit env _).api_url = v
    unfold Config.postInit
    rw [Config.syncKeys_api_url]
    simp [Config.applyEnv, hv, Config.optTruthy_some hne]
  · intro v hv hne
    show (Config.postInit env _).default_agent = v
    unfold Config.postInit
    rw [Config.syncKeys_default_agent]
    simp [Config.applyEnv, hv, Config.optTruthy_some hne]

/-- Witness for C2: a file dict setting all three fields, fully overridden by
the environment. -/
theorem C2_env_overrides_witness :
    (Config.from_dict
      { todoforai_api_key := some "EK", todo4ai_api_url := some "EU",
        todoforai_agent := some "EA" }
      [("api_key", J.str "fk"), ("api_url", J.str "fu"),
       ("default_agent", J.str "fa")]).api_key = "EK" ∧
    (Config.from_dict
      { todoforai_api_key := some "EK", todo4ai_api_url := some "EU",
        todoforai_agent := some "EA" }
      [("api_key", J.str "fk"), ("api_url", J.str "fu"),
       ("default_agent", J.str "fa")]).api_url = "EU" ∧
    (Config.from_dict
      { todoforai_api_key := some "EK", todo4ai_api_url := some "EU",
        todoforai_agent := some "EA" }
      [("api_key", J.str "fk"), ("api_url", J.str "fu"),
       ("default_agent", J.str "fa")]).default_agent = "EA" := by
  obtain ⟨h1, h2, h3⟩ := C2_env_overrides
    [("api_key", J.str "fk"), ("api_url", J.str "fu"), ("default_agent", J.str "fa")]
    { todoforai_api_key := some "EK", todo4ai_api_url := some "EU",
      todoforai_agent := some "EA" }
  exact ⟨h1 "EK" (by decide) (by decide), h2 "EU" (by decide) (by decide),
         h3 "EA" rfl (by decide)⟩

namespace Config

lemma splitKeys_no_empty (s : String) : "" ∉ splitKeys s := by
  simp [splitKeys, List.mem_filter]

lemma applyEnv_no_empty_key (env : Env) (c0 : TBenchConfig) (h : "" ∉ c0.api_keys) :
    "" ∉ (applyEnv env c0).api_keys := by
  simp only [applyEnv]
  split
  · exact splitKeys_no_empty _
  · exact h

lemma syncKeys_iff (a : TBenchConfig) (h : "" ∉ a.api_keys) :
    ((syncKeys a).api_key ≠ "" ↔ (syncKeys a).api_keys ≠ []) := by
  unfold syncKeys
  split_ifs with h1 h2
  · simp [h1.1]
  · obtain ⟨x, xs, hx⟩ := List.exists_cons_of_ne_nil h2.1
    have hxne : x ≠ "" := by
      intro he
      exact h (by rw [hx, he]; exact List.mem_cons_self _ _)
    simp [hx, hxne]
  · push_neg at h1 h2
    exact ⟨h1, h2⟩

lemma applyEnv_empty_key (c0 : TBenchConfig) :
    (applyEnv Env.empty c0).api_key = c0.api_key := rfl

lemma applyEnv_empty_keys (c0 : TBenchConfig) :
    (applyEnv Env.empty c0).api_keys = c0.api_keys := rfl

end Config

/-- C9 (amended): provided the constructor arguments contain no empty string
in `api_keys`, every `TBenchConfig` satisfies from the end of construction
onward: `api_key` is non-empty iff `api_keys` is non-empty; when exactly one
of the two is set (and no environment variable interferes) the other is
populated from it (`api_keys` becomes `[api_key]`, `api_key` becomes
`api_keys[0]`); and `next_api_key`, the only mutating operation, preserves
both fields. -/
theorem C9_sync_invariant (env : Config.Env) (c0 : Config.TBenchConfig)
    (h : "" ∉ c0.api_keys) :
    ((Config.postInit env c0).api_key ≠ "" ↔ (Config.postInit env c0).api_keys ≠ []) ∧
    (c0.api_key ≠ "" → c0.api_keys = [] → env = Config.Env.empty →
      (Config.postInit env c0).api_keys = [c0.api_key] ∧
      (Config.postInit env c0).api_key = c0.api_key) ∧
    (c0.api_key = "" → c0.api_keys ≠ [] → env = Config.Env.empty →
      (Config.postInit env c0).api_key = c0.api_keys.headD "" ∧
      (Config.postInit env c0).api_keys = c0.api_keys) ∧
    (∀ c : Config.TBenchConfig,
      (Config.next_api_key c).2.api_key = c.api_key ∧
      (Config.next_api_key c).2.api_keys = c.api_keys) := by
  refine ⟨?_, ?_, ?_, Config.next_api_key_fields⟩
  · exact Config.syncKeys_iff _ (Config.applyEnv_no_empty_key env c0 h)
  · intro hk hks henv
    subst henv
    unfold Config.postInit Config.syncKeys
    rw [Config.applyEnv_empty_key, Config.applyEnv_empty_keys]
    simp [hk, hks]
  · intro hk hks henv
    subst henv
    unfold Config.postInit Config.syncKeys
    rw [Config.applyEnv_empty_key, Config.applyEnv_empty_keys]
    simp [hk, hks]

/-- C9 counterexample to the claim as stated: constructing with
`api_keys=[""]` (no environment) leaves `api_key` empty while `api_keys` is a
non-empty list, so "api_key is non-empty iff api_keys is non-empty" fails. -/
theorem C9_sync_counterexample :
    (Config.postInit Config.Env.empty { api_keys := [""] }).api_keys ≠ [] ∧
    (Config.postInit Config.Env.empty { api_keys := [""] }).api_key = "" := by
  constructor
  · decide
  · decide

/-- Witness for C9 on a concrete key-only construction. -/
theorem C9_sync_invariant_witness :
    ((Config.postInit Config.Env.empty { api_key := "k" : Config.TBenchConfig }).api_key ≠ ""
      ↔ (Config.postInit Config.Env.empty { api_key := "k" : Config.TBenchConfig }).api_keys ≠ []) ∧
    (Config.postInit Config.Env.empty { api_key := "k" : Config.TBenchConfig }).api_keys = ["k"] := by
  obtain ⟨h1, h2, _, _⟩ := C9_sync_invariant Config.Env.empty { api_key := "k" } (by decide)
  exact ⟨h1, (h2 (by decide) rfl rfl).1⟩

namespace Agent

lemma parse_output_go_eq (parse : List Char → Option (List (String × J)))
    (ls : List (List Char)) :
    parse_output.go parse ls = (ls.findSome? (lineResult parse)).getD (0, 0) := by
  induction ls with
  | nil => rfl
  | cons line rest ih =>
    unfold parse_output.go
    cases hl : lineResult parse line with
    | none => simp [List.findSome?_cons, hl, ih]
    | some t => simp [List.findSome?_cons, hl]

end Agent

/-- C7 (amended): `_parse_output` scans the lines in order and takes the
totals (with default 0 per count) from the first line that either is a JSON
object mentioning `input_tokens` and parsing as JSON, or — not being such a
candidate — contains `TBENCH_RESULT:` anywhere with the part after its first
occurrence parsing as JSON; if no line qualifies both totals stay 0 (a
candidate of the first kind that fails to parse is skipped entirely). The
`AgentResult` of `perform_task` reports exactly these two totals. -/
theorem C7_token_totals (parse : List Char → Option (List (String × J)))
    (output : String) (fm : String) :
    Agent.parse_output parse output =
      ((Config.splitChar '\n' output.toList).findSome? (Agent.lineResult parse)).getD (0, 0) ∧
    (Agent.perform_task_result parse output fm).input_tokens =
      (Agent.parse_output parse output).1 ∧
    (Agent.perform_task_result parse output fm).output_tokens =
      (Agent.parse_output parse output).2 := by
  exact ⟨Agent.parse_output_go_eq parse _, rfl, rfl⟩

/-- C7 counterexample to the claim as stated: on a line carrying
`TBENCH_RESULT:` in the middle (not as a prefix), the code still reads the
totals `(3, 4)` while the claim's first-line rule (prefix only) leaves
`(0, 0)`. -/
theorem C7_token_totals_counterexample :
    Agent.parse_output Agent.parseStub
      "foo TBENCH_RESULT: \x7b\"input_tokens\": 3, \"output_tokens\": 4\x7d" = (3, 4) ∧
    Agent.parse_output_claimed Agent.parseStub
      "foo TBENCH_RESULT: \x7b\"input_tokens\": 3, \"output_tokens\": 4\x7d" = (0, 0) ∧
    ((3 : Int), (4 : Int)) ≠ ((0 : Int), (0 : Int)) := by
  exact ⟨by decide, by decide, by decide⟩

lemma lookup_map_replace (d : List (String × J)) {k k' : String} (v : J) (h : k ≠ k') :
    (d.map (fun kv => if kv.1 = k' then (k', v) else kv)).lookup k = d.lookup k := by
  induction d with
  | nil => rfl
  | cons a d ih =>
    obtain ⟨a1, a2⟩ := a
    by_cases ha : a1 = k'
    · simp only [List.map_cons, ha, if_pos rfl]
      rw [List.lookup_cons, List.lookup_cons]
      have hk : (k == k') = false := beq_eq_false_iff_ne.mpr h
      have hk2 : (k == a1) = false := beq_eq_false_iff_ne.mpr (by rw [ha]; exact h)
      simp [hk, hk2, ih]
    · simp only [List.map_cons, if_neg ha]
      rw [List.lookup_cons, List.lookup_cons]
      cases hka : (k == a1) <;> simp [ih]

lemma lookup_map_replace_self (d : List (String × J)) {k : String} (v : J)
    (hany : d.any (fun kv => kv.1 = k) = true) :
    (d.map (fun kv => if kv.1 = k then (k, v) else kv)).lookup k = some v := by
  induction d with
  | nil => simp at hany
  | cons a d ih =>
    obtain ⟨a1, a2⟩ := a
    by_cases ha : a1 = k
    · simp only [List.map_cons, ha, if_pos rfl]
      exact List.lookup_cons_self
    · have hany' : d.any (fun kv => kv.1 = k) = true := by
        simp only [List.any_cons] at hany
        rcases Bool.or_eq_true_iff.mp hany with h1 | h2
        · exact absurd (by simpa using h1) ha
        · exact h2
      simp only [List.map_cons, if_neg ha]
      rw [List.lookup_cons]
      have hk2 : (k == a1) = false := beq_eq_false_iff_ne.mpr (fun he => ha he.symm)
      simp [hk2, ih hany']

lemma lookup_dictSet_ne (d : List (String × J)) {k k' : String} (v : J) (h : k ≠ k') :
    (dictSet d k' v).lookup k = d.lookup k := by
  unfold dictSet
  split
  · exact lookup_map_replace d v h
  · rw [List.lookup_append]
    rw [List.lookup_cons]
    have hk : (k == k') = false := beq_eq_false_iff_ne.mpr h
    simp [hk]

lemma lookup_dictSet_self (d : List (String × J)) (k : String) (v : J) :
    (dictSet d k v).lookup k = some v := by
  unfold dictSet
  split
  case isTrue hany => exact lookup_map_replace_self d v hany
  case isFalse hany =>
    rw [List.lookup_append]
    have hnone : d.lookup k = none := by
      rw [List.lookup_eq_none_iff]
      intro p hp
      have hne : p.1 ≠ k := fun he => hany (List.any_eq_true.mpr ⟨p, hp, by simp [he]⟩)
      exact bne_iff_ne.mpr (Ne.symm hne)
    simp [hnone]

lemma lookup_dictUpdate_notin (d m : List (String × J)) (k : String)
    (h : ∀ kv ∈ m, kv.1 ≠ k) :
    (dictUpdate d m).lookup k = d.lookup k := by
  induction m generalizing d with
  | nil => rfl
  | cons kv m ih =>
    show (dictUpdate (dictSet d kv.1 kv.2) m).lookup k = _
    rw [ih _ (fun kv' hkv' => h kv' (List.mem_cons_of_mem _ hkv'))]
    exact lookup_dictSet_ne d kv.2 (fun he => h kv (List.mem_cons_self _ _) he.symm)

namespace Mind2Web

lemma runCalls_spec (r : TaskRunner) (calls : List RunnerCall) :
    (runCalls r calls).actions = r.actions ++ actionLog calls ∧
    (runCalls r calls).thoughts = r.thoughts ++ thoughtLog calls ∧
    (runCalls r calls).screenshot_count = r.screenshot_count + shotCount calls ∧
    (runCalls r calls).task = r.task := by
  induction calls generalizing r with
  | nil => simp [runCalls, actionLog, thoughtLog, shotCount]
  | cons c rest ih =>
    cases c with
    | action a =>
      obtain ⟨h1, h2, h3, h4⟩ := ih (add_action r a)
      refine ⟨?_, ?_, ?_, ?_⟩
      · show (runCalls (add_action r a) rest).actions = _
        rw [h1]
        simp [add_action, actionLog, List.filterMap_cons]
      · show (runCalls (add_action r a) rest).thoughts = _
        rw [h2]
        simp [add_action, thoughtLog, List.filterMap_cons]
      · show (runCalls (add_action r a) rest).screenshot_count = _
        rw [h3]
        simp [add_action, shotCount, List.countP_cons]
      · show (runCalls (add_action r a) rest).task = _
        rw [h4]
        rfl
    | thought t =>
      obtain ⟨h1, h2, h3, h4⟩ := ih (add_thought r t)
      refine ⟨?_, ?_, ?_, ?_⟩
      · show (runCalls (add_thought r t) rest).actions = _
        rw [h1]
        simp [add_thought, actionLog, List.filterMap_cons]
      · show (runCalls (add_thought r t) rest).thoughts = _
        rw [h2]
        simp [add_thought, thoughtLog, List.filterMap_cons]
      · show (runCalls (add_thought r t) rest).screenshot_count = _
        rw [h3]
        simp [add_thought, shotCount, List.countP_cons]
      · show (runCalls (add_thought r t) rest).task = _
        rw [h4]
        rfl
    | shot =>
      obtain ⟨h1, h2, h3, h4⟩ := ih (screenshot r)
      refine ⟨?_, ?_, ?_, ?_⟩
      · show (runCalls (screenshot r) rest).actions = _
        rw [h1]
        simp [screenshot, actionLog, List.filterMap_cons]
      · show (runCalls (screenshot r) rest).thoughts = _
        rw [h2]
        simp [screenshot, thoughtLog, List.filterMap_cons]
      · show (runCalls (screenshot r) rest).screenshot_count = _
        rw [h3]
        simp [screenshot, shotCount, List.countP_cons]
        omega
      · show (runCalls (screenshot r) rest).task = _
        rw [h4]
        rfl

lemma complete_lookup_low (r : TaskRunner) (status : String) (fr : Option String)
    (url : Option String) (md : Option (List (String × J))) (S E : String)
    {k : String} (h1 : k ≠ "_metadata") (h2 : k ≠ "final_url")
    (hmd : ∀ m, md = some m → ∀ kv ∈ m, kv.1 ≠ k) :
    (complete r status fr url md S E).lookup k = (completeBase r status fr).lookup k := by
  unfold complete
  rw [lookup_dictSet_ne _ _ h1]
  have hurl : (completeWithUrl (completeBase r status fr) url).lookup k =
      (completeBase r status fr).lookup k := by
    unfold completeWithUrl
    cases url with
    | none => rfl
    | some u =>
      by_cases hu : u = ""
      · simp [hu]
      · simp only [if_neg hu]
        exact lookup_dictSet_ne _ _ h2
  cases md with
  | none => exact hurl
  | some m =>
    show (dictUpdate _ m).lookup k = _
    rw [lookup_dictUpdate_notin _ _ _ (hmd m rfl)]
    exact hurl

end Mind2Web


/-- C3 (amended): for every `TaskRunner` on which a sequence of `add_action`,
`add_thought` and `screenshot` calls has been made, the result document
written to `result.json` and returned by
`complete(status, final_response, url, metadata)` has `action_history` equal
to the accumulated action log in insertion order, `thoughts` equal to the
accumulated thought log in insertion order, `final_result_response` equal to
`final_response` when a non-empty one is given and `"Task {status}"`
otherwise, and `_metadata` recording `num_actions` and `num_screenshots` —
provided the `metadata` dict, when given, does not itself carry one of the
keys `action_history`, `thoughts`, `final_result_response` (the code merges
`metadata` over them). -/
theorem C3_complete_trajectory (t : Mind2Web.Task) (calls : List Mind2Web.RunnerCall)
    (status : String) (fr url : Option String)
    (md : Option (List (String × J))) (S E : String)
    (hfr : fr ≠ some "")
    (hmd : ∀ m, md = some m → ∀ kv ∈ m,
      kv.1 ∉ (["action_history", "thoughts", "final_result_response"] : List String)) :
    (Mind2Web.complete (Mind2Web.runCalls { task := t } calls) status fr url md S E).lookup
        "action_history" = some (J.arr ((Mind2Web.actionLog calls).map J.str)) ∧
    (Mind2Web.complete (Mind2Web.runCalls { task := t } calls) status fr url md S E).lookup
        "thoughts" = some (J.arr ((Mind2Web.thoughtLog calls).map J.str)) ∧
    (Mind2Web.complete (Mind2Web.runCalls { task := t } calls) status fr url md S E).lookup
        "final_result_response" = some (J.str (fr.getD ("Task " ++ status))) ∧
    (Mind2Web.complete (Mind2Web.runCalls { task := t } calls) status fr url md S E).lookup
        "_metadata" = some (J.obj
      [("start_time", J.str S), ("end_time", J.str E),
       ("num_actions", J.num ((Mind2Web.actionLog calls).length : Int)),
       ("num_screenshots", J.num ((Mind2Web.shotCount calls) : Int))]) := by
  obtain ⟨ha, ht, hs, htask⟩ := Mind2Web.runCalls_spec { task := t } calls
  have hmd1 : ∀ m, md = some m → ∀ kv ∈ m, kv.1 ≠ "action_history" := by
    intro m hm kv hkv he
    exact hmd m hm kv hkv (by rw [he]; exact List.mem_cons_self _ _)
  have hmd2 : ∀ m, md = some m → ∀ kv ∈ m, kv.1 ≠ "thoughts" := by
    intro m hm kv hkv he
    exact hmd m hm kv hkv (by rw [he]; simp)
  have hmd3 : ∀ m, md = some m → ∀ kv ∈ m, kv.1 ≠ "final_result_response" := by
    intro m hm kv hkv he
    exact hmd m hm kv hkv (by rw [he]; simp)
  refine ⟨?_, ?_, ?_, ?_⟩
  · rw [Mind2Web.complete_lookup_low _ _ _ _ _ _ _ (by decide) (by decide) hmd1]
    show some (J.arr _) = _
    rw [ha]
    simp
  · rw [Mind2Web.complete_lookup_low _ _ _ _ _ _ _ (by decide) (by decide) hmd2]
    show some (J.arr _) = _
    rw [ht]
    simp
  · rw [Mind2Web.complete_lookup_low _ _ _ _ _ _ _ (by decide) (by decide) hmd3]
    show some (J.str _) = _
    cases fr with
    | none => rfl
    | some s =>
      have hs' : s ≠ "" := fun he => hfr (by rw [he])
      simp [hs']
  · unfold Mind2Web.complete
    rw [lookup_dictSet_self, ha, hs]
    simp

/-- C3 counterexample to the claim as stated: a `metadata` dict carrying
`action_history` clobbers the recorded log, and an empty-string
`final_response`, though given, is replaced by `"Task {status}"`. -/
theorem C3_complete_counterexample :
    (Mind2Web.complete
        (Mind2Web.runCalls { task := { task_id := "T", description := "D" } }
          [.action (.txt "a")])
        "success" none none (some [("action_history", J.str "x")]) "S" "E").lookup
      "action_history" = some (J.str "x") ∧
    J.str "x" ≠ J.arr [J.str "a"] ∧
    (Mind2Web.complete { task := { task_id := "T", description := "D" } }
        "success" (some "") none none "S" "E").lookup
      "final_result_response" = some (J.str "Task success") ∧
    "Task success" ≠ "" := by
  refine ⟨rfl, ?_, rfl, by decide⟩
  intro h
  exact J.noConfusion h

/-- Witness for C3 on a concrete call sequence with benign metadata. -/
theorem C3_complete_trajectory_witness :
    (Mind2Web.complete
        (Mind2Web.runCalls { task := { task_id := "T", description := "D" } }
          [.thought "th", .action (.txt "a1"), .shot, .action (.txt "a2"), .shot])
        "success" (some "done") (some "u") (some [("extra", J.num 1)]) "S" "E").lookup
      "action_history" = some (J.arr [J.str "a1", J.str "a2"]) ∧
    (Mind2Web.complete
        (Mind2Web.runCalls { task := { task_id := "T", description := "D" } }
          [.thought "th", .action (.txt "a1"), .shot, .action (.txt "a2"), .shot])
        "success" (some "done") (some "u") (some [("extra", J.num 1)]) "S" "E").lookup
      "_metadata" = some (J.obj
        [("start_time", J.str "S"), ("end_time", J.str "E"),
         ("num_actions", J.num 2), ("num_screenshots", J.num 2)]) := by
  have h := C3_complete_trajectory { task_id := "T", description := "D" }
    [.thought "th", .action (.txt "a1"), .shot, .action (.txt "a2"), .shot]
    "success" (some "done") (some "u") (some [("extra", J.num 1)]) "S" "E"
    (by decide)
    (by intro m hm; cases hm; decide)
  exact ⟨h.1, h.2.2.2⟩

lemma dictSet_append_of_not_mem (d : List (String × J)) (k : String) (v : J)
    (h : ∀ kv ∈ d, kv.1 ≠ k) : dictSet d k v = d ++ [(k, v)] := by
  unfold dictSet
  rw [if_neg]
  intro hany
  obtain ⟨kv, hkv, he⟩ := List.any_eq_true.mp hany
  exact h kv hkv (by simpa using he)

lemma dictUpdate_append (d ext : List (String × J))
    (hd : ∀ kv ∈ ext, ∀ kv' ∈ d, kv.1 ≠ kv'.1)
    (hnodup : (ext.map Prod.fst).Nodup) :
    dictUpdate d ext = d ++ ext := by
  induction ext generalizing d with
  | nil => simp [dictUpdate]
  | cons kv ext ih =>
    show dictUpdate (dictSet d kv.1 kv.2) ext = _
    rw [dictSet_append_of_not_mem d kv.1 kv.2
      (fun kv' hkv' he => hd kv (List.mem_cons_self _ _) kv' hkv' he.symm)]
    rw [ih (d ++ [(kv.1, kv.2)]) ?_ ?_]
    · simp
    · intro kv' hkv' kv'' hkv''
      rcases List.mem_append.mp hkv'' with h1 | h2
      · exact hd kv' (List.mem_cons_of_mem _ hkv') kv'' h1
      · have he2 : kv'' = (kv.1, kv.2) := by simpa using h2
        subst he2
        simp only [List.map_cons, List.nodup_cons] at hnodup
        intro he
        exact hnodup.1 (he ▸ List.mem_map_of_mem Prod.fst hkv')
    · simp only [List.map_cons, List.nodup_cons] at hnodup
      exact hnodup.2

namespace Config

lemma syncKeys_preserves (c : TBenchConfig) :
    (syncKeys c).api_url = c.api_url ∧
    (syncKeys c).default_model = c.default_model ∧
    (syncKeys c).default_agent = c.default_agent ∧
    (syncKeys c).project_id = c.project_id ∧
    (syncKeys c).timeout = c.timeout ∧
    (syncKeys c).max_iterations = c.max_iterations ∧
    (syncKeys c).log_dir = c.log_dir ∧
    (syncKeys c).verbose = c.verbose ∧
    (syncKeys c).track_tokens = c.track_tokens ∧
    (syncKeys c).extra = c.extra ∧
    (syncKeys c).key_counter = c.key_counter := by
  unfold syncKeys
  split_ifs <;> exact ⟨rfl, rfl, rfl, rfl, rfl, rfl, rfl, rfl, rfl, rfl, rfl⟩

lemma syncKeys_key_nonempty (y : TBenchConfig) :
    (syncKeys y).api_key ≠ "" → (syncKeys y).api_keys ≠ [] := by
  unfold syncKeys
  split_ifs with hA hB
  · simp
  · intro _
    exact hB.1
  · intro hk
    push_neg at hA
    exact hA hk

lemma syncKeys_headD (y : TBenchConfig) :
    (syncKeys y).api_key = "" → (syncKeys y).api_keys ≠ [] →
    (syncKeys y).api_keys.headD "" = (syncKeys y).api_key := by
  unfold syncKeys
  split_ifs with hA hB
  · intro hk
    exact absurd hk hA.1
  · intro _ _
    rfl
  · intro hk hks
    exact absurd ⟨hks, hk⟩ hB

lemma syncKeys_fix (x : TBenchConfig)
    (h1 : x.api_key ≠ "" → x.api_keys ≠ [])
    (h2 : x.api_key = "" → x.api_keys ≠ [] → x.api_keys.headD "" = x.api_key) :
    (syncKeys x).api_key = x.api_key ∧ (syncKeys x).api_keys = x.api_keys := by
  unfold syncKeys
  split_ifs with hA hB
  · exact absurd hA.2 (h1 hA.1)
  · exact ⟨h2 hB.2 hB.1, rfl⟩
  · exact ⟨rfl, rfl⟩

lemma filterMap_str (l : List String) :
    (l.map J.str).filterMap
      (fun v => match v with | J.str s => some s | _ => none) = l := by
  induction l with
  | nil => rfl
  | cons a l ih => simp [List.filterMap_cons, ih]

lemma to_dict_lookup_known (c : TBenchConfig)
    (hdisj : ∀ kv ∈ c.extra, kv.1 ∉ knownFields) :
    (to_dict c).lookup "api_url" = some (J.str c.api_url) ∧
    (to_dict c).lookup "api_key" = some (J.str c.api_key) ∧
    (to_dict c).lookup "api_keys" = some (J.arr (c.api_keys.map J.str)) ∧
    (to_dict c).lookup "default_model" = some (J.str c.default_model) ∧
    (to_dict c).lookup "default_agent" = some (J.str c.default_agent) ∧
    (to_dict c).lookup "project_id" =
      some (match c.project_id with | some s => J.str s | none => J.null) ∧
    (to_dict c).lookup "timeout" = some (J.num c.timeout) ∧
    (to_dict c).lookup "max_iterations" = some (J.num c.max_iterations) ∧
    (to_dict c).lookup "log_dir" = some (J.str c.log_dir) ∧
    (to_dict c).lookup "verbose" = some (J.bool c.verbose) ∧
    (to_dict c).lookup "track_tokens" = some (J.bool c.track_tokens) := by
  have h : ∀ k, k ∈ knownFields → (to_dict c).lookup k = (to_dict_base c).lookup k := by
    intro k hk
    exact lookup_dictUpdate_notin _ _ _ (fun kv hkv he => hdisj kv hkv (he ▸ hk))
  refine ⟨?_, ?_, ?_, ?_, ?_, ?_, ?_, ?_, ?_, ?_, ?_⟩ <;>
    rw [h _ (by decide)] <;> rfl

lemma to_dict_base_keys (c : TBenchConfig) :
    (to_dict_base c).map Prod.fst = knownFields := rfl

lemma to_dict_filter_extra (c : TBenchConfig)
    (hnodup : (c.extra.map Prod.fst).Nodup)
    (hdisj : ∀ kv ∈ c.extra, kv.1 ∉ knownFields) :
    (to_dict c).filter (fun kv => ¬ kv.1 ∈ knownFields) = c.extra := by
  unfold to_dict
  rw [dictUpdate_append _ _ ?_ hnodup]
  · rw [List.filter_append]
    have hbase : (to_dict_base c).filter (fun kv => ¬ kv.1 ∈ knownFields) = [] := by
      simp [to_dict_base, knownFields]
    rw [hbase, List.filter_eq_self.mpr]
    · simp
    · intro kv hkv
      simpa using hdisj kv hkv
  · intro kv hkv kv' hkv'
    have hk' : kv'.1 ∈ knownFields := by
      rw [← to_dict_base_keys c]
      exact List.mem_map_of_mem Prod.fst hkv'
    intro he
    exact hdisj kv hkv (he ▸ hk')

end Config

/-- Round-trip core: for a config whose `api_url` is non-empty, whose
`api_key`/`api_keys` are in the fixed point of the sync (as every
`__post_init__` output is), and whose `extra` is a dict with keys disjoint
from the known field names, `from_dict (to_dict c)` restores every public
field and `extra`. -/
lemma Config.round_trip_core (c : Config.TBenchConfig)
    (hurl_ne : c.api_url ≠ "")
    (hk1 : c.api_key ≠ "" → c.api_keys ≠ [])
    (hk2 : c.api_key = "" → c.api_keys ≠ [] → c.api_keys.headD "" = c.api_key)
    (hnodup : (c.extra.map Prod.fst).Nodup)
    (hdisj : ∀ kv ∈ c.extra, kv.1 ∉ Config.knownFields) :
    (Config.from_dict Config.Env.empty (Config.to_dict c)).api_url = c.api_url ∧
    (Config.from_dict Config.Env.empty (Config.to_dict c)).api_key = c.api_key ∧
    (Config.from_dict Config.Env.empty (Config.to_dict c)).api_keys = c.api_keys ∧
    (Config.from_dict Config.Env.empty (Config.to_dict c)).default_model = c.default_model ∧
    (Config.from_dict Config.Env.empty (Config.to_dict c)).default_agent = c.default_agent ∧
    (Config.from_dict Config.Env.empty (Config.to_dict c)).project_id = c.project_id ∧
    (Config.from_dict Config.Env.empty (Config.to_dict c)).timeout = c.timeout ∧
    (Config.from_dict Config.Env.empty (Config.to_dict c)).max_iterations = c.max_iterations ∧
    (Config.from_dict Config.Env.empty (Config.to_dict c)).log_dir = c.log_dir ∧
    (Config.from_dict Config.Env.empty (Config.to_dict c)).verbose = c.verbose ∧
    (Config.from_dict Config.Env.empty (Config.to_dict c)).track_tokens = c.track_tokens ∧
    (Config.from_dict Config.Env.empty (Config.to_dict c)).extra = c.extra := by
  obtain ⟨l1, l2, l3, l4, l5, l6, l7, l8, l9, l10, l11⟩ :=
    Config.to_dict_lookup_known c hdisj
  have i1 : Config.getStrF (Config.to_dict c) "api_url" "http://localhost:4000" = c.api_url := by
    unfold Config.getStrF; rw [l1]
  have i2 : Config.getStrF (Config.to_dict c) "api_key" "" = c.api_key := by
    unfold Config.getStrF; rw [l2]
  have i3 : Config.getStrListF (Config.to_dict c) "api_keys" = c.api_keys := by
    unfold Config.getStrListF; rw [l3]; exact Config.filterMap_str _
  have i6 : Config.getOptStrF (Config.to_dict c) "project_id" = c.project_id := by
    unfold Config.getOptStrF; rw [l6]
    cases c.project_id <;> rfl
  have hAkey : (Config.applyEnv Config.Env.empty (Config.fromDictInit (Config.to_dict c))).api_key = Config.getStrF (Config.to_dict c) "api_key" "" := rfl
  have hAkeys : (Config.applyEnv Config.Env.empty (Config.fromDictInit (Config.to_dict c))).api_keys = Config.getStrListF (Config.to_dict c) "api_keys" := rfl
  have hfix := Config.syncKeys_fix (Config.applyEnv Config.Env.empty (Config.fromDictInit (Config.to_dict c)))
    (by rw [hAkey, hAkeys, i2, i3]; exact hk1)
    (by rw [hAkey, hAkeys, i2, i3]; exact hk2)
  refine ⟨?_, ?_, ?_, ?_, ?_, ?_, ?_, ?_, ?_, ?_, ?_, ?_⟩
  · show (Config.postInit Config.Env.empty (Config.fromDictInit (Config.to_dict c))).api_url = _
    unfold Config.postInit
    rw [(Config.syncKeys_preserves _).1]
    have hA : (Config.applyEnv Config.Env.empty (Config.fromDictInit (Config.to_dict c))).api_url =
        (if Config.getStrF (Config.to_dict c) "api_url" "http://localhost:4000" = ""
         then "http://localhost:4000"
         else Config.getStrF (Config.to_dict c) "api_url" "http://localhost:4000") := rfl
    rw [hA, i1, if_neg hurl_ne]
  · show (Config.postInit Config.Env.empty (Config.fromDictInit (Config.to_dict c))).api_key = _
    unfold Config.postInit
    rw [hfix.1, hAkey, i2]
  · show (Config.postInit Config.Env.empty (Config.fromDictInit (Config.to_dict c))).api_keys = _
    unfold Config.postInit
    rw [hfix.2, hAkeys, i3]
  · show (Config.postInit Config.Env.empty (Config.fromDictInit (Config.to_dict c))).default_model = _
    unfold Config.postInit
    rw [(Config.syncKeys_preserves _).2.1]
    have hA : (Config.applyEnv Config.Env.empty (Config.fromDictInit (Config.to_dict c))).default_model = Config.getStrF (Config.to_dict c) "default_model" "claude-sonnet-4-5" := rfl
    rw [hA]
    unfold Config.getStrF
    rw [l4]
  · show (Config.postInit Config.Env.empty (Config.fromDictInit (Config.to_dict c))).default_agent = _
    unfold Config.postInit
    rw [(Config.syncKeys_preserves _).2.2.1]
    have hA : (Config.applyEnv Config.Env.empty (Config.fromDictInit (Config.to_dict c))).default_agent = Config.getStrF (Config.to_dict c) "default_agent" "Agent" := rfl
    rw [hA]
    unfold Config.getStrF
    rw [l5]
  · show (Config.postInit Config.Env.empty (Config.fromDictInit (Config.to_dict c))).project_id = _
    unfold Config.postInit
    rw [(Config.syncKeys_preserves _).2.2.2.1]
    have hA : (Config.applyEnv Config.Env.empty (Config.fromDictInit (Config.to_dict c))).project_id = Config.getOptStrF (Config.to_dict c) "project_id" := rfl
    rw [hA, i6]
  · show (Config.postInit Config.Env.empty (Config.fromDictInit (Config.to_dict c))).timeout = _
    unfold Config.postInit
    rw [(Config.syncKeys_preserves _).2.2.2.2.1]
    have hA : (Config.applyEnv Config.Env.empty (Config.fromDictInit (Config.to_dict c))).timeout = Config.getIntF (Config.to_dict c) "timeout" 600 := rfl
    rw [hA]
    unfold Config.getIntF
    rw [l7]
  · show (Config.postInit Config.Env.empty (Config.fromDictInit (Config.to_dict c))).max_iterations = _
    unfold Config.postInit
    rw [(Config.syncKeys_preserves _).2.2.2.2.2.1]
    have hA : (Config.applyEnv Config.Env.empty (Config.fromDictInit (Config.to_dict c))).max_iterations = Config.getIntF (Config.to_dict c) "max_iterations" 100 := rfl
    rw [hA]
    unfold Config.getIntF
    rw [l8]
  · show (Config.postInit Config.Env.empty (Config.fromDictInit (Config.to_dict c))).log_dir = _
    unfold Config.postInit
    rw [(Config.syncKeys_preserves _).2.2.2.2.2.2.1]
    have hA : (Config.applyEnv Config.Env.empty (Config.fromDictInit (Config.to_dict c))).log_dir = Config.getStrF (Config.to_dict c) "log_dir" "./logs" := rfl
    rw [hA]
    unfold Config.getStrF
    rw [l9]
  · show (Config.postInit Config.Env.empty (Config.fromDictInit (Config.to_dict c))).verbose = _
    unfold Config.postInit
    rw [(Config.syncKeys_preserves _).2.2.2.2.2.2.2.1]
    have hA : (Config.applyEnv Config.Env.empty (Config.fromDictInit (Config.to_dict c))).verbose = Config.getBoolF (Config.to_dict c) "verbose" false := rfl
    rw [hA]
    unfold Config.getBoolF
    rw [l10]
  · show (Config.postInit Config.Env.empty (Config.fromDictInit (Config.to_dict c))).track_tokens = _
    unfold Config.postInit
    rw [(Config.syncKeys_preserves _).2.2.2.2.2.2.2.2.1]
    have hA : (Config.applyEnv Config.Env.empty (Config.fromDictInit (Config.to_dict c))).track_tokens = Config.getBoolF (Config.to_dict c) "track_tokens" true := rfl
    rw [hA]
    unfold Config.getBoolF
    rw [l11]
  · show ((Config.to_dict c)).filter (fun kv => ¬ kv.1 ∈ Config.knownFields) = _
    rw [Config.to_dict_filter_extra c hnodup hdisj]

/-- C10 (amended): for every `TBenchConfig` constructed with no
`TODOFORAI_*`/`TODO4AI_*` environment variable set,
`TBenchConfig.from_dict(c.to_dict())` yields a config equal to `c` on every
public field and with the same `extra` dict — provided `extra` (a dict, so
its keys are distinct) has no key among the known field names (the code
merges `extra` over the known fields in `to_dict`, so such a key would
overwrite the field and be lost from `extra`). -/
theorem C10_round_trip (c0 : Config.TBenchConfig)
    (hnodup : (c0.extra.map Prod.fst).Nodup)
    (hdisj : ∀ kv ∈ c0.extra, kv.1 ∉ Config.knownFields) :
    (Config.from_dict Config.Env.empty
        (Config.to_dict (Config.postInit Config.Env.empty c0))).api_url =
      (Config.postInit Config.Env.empty c0).api_url ∧
    (Config.from_dict Config.Env.empty
        (Config.to_dict (Config.postInit Config.Env.empty c0))).api_key =
      (Config.postInit Config.Env.empty c0).api_key ∧
    (Config.from_dict Config.Env.empty
        (Config.to_dict (Config.postInit Config.Env.empty c0))).api_keys =
      (Config.postInit Config.Env.empty c0).api_keys ∧
    (Config.from_dict Config.Env.empty
        (Config.to_dict (Config.postInit Config.Env.empty c0))).default_model =
      (Config.postInit Config.Env.empty c0).default_model ∧
    (Config.from_dict Config.Env.empty
        (Config.to_dict (Config.postInit Config.Env.empty c0))).default_agent =
      (Config.postInit Config.Env.empty c0).default_agent ∧
    (Config.from_dict Config.Env.empty
        (Config.to_dict (Config.postInit Config.Env.empty c0))).project_id =
      (Config.postInit Config.Env.empty c0).project_id ∧
    (Config.from_dict Config.Env.empty
        (Config.to_dict (Config.postInit Config.Env.empty c0))).timeout =
      (Config.postInit Config.Env.empty c0).timeout ∧
    (Config.from_dict Config.Env.empty
        (Config.to_dict (Config.postInit Config.Env.empty c0))).max_iterations =
      (Config.postInit Config.Env.empty c0).max_iterations ∧
    (Config.from_dict Config.Env.empty
        (Config.to_dict (Config.postInit Config.Env.empty c0))).log_dir =
      (Config.postInit Config.Env.empty c0).log_dir ∧
    (Config.from_dict Config.Env.empty
        (Config.to_dict (Config.postInit Config.Env.empty c0))).verbose =
      (Config.postInit Config.Env.empty c0).verbose ∧
    (Config.from_dict Config.Env.empty
        (Config.to_dict (Config.postInit Config.Env.empty c0))).track_tokens =
      (Config.postInit Config.Env.empty c0).track_tokens ∧
    (Config.from_dict Config.Env.empty
        (Config.to_dict (Config.postInit Config.Env.empty c0))).extra =
      (Config.postInit Config.Env.empty c0).extra := by
  have hextra : (Config.postInit Config.Env.empty c0).extra = c0.extra := by
    unfold Config.postInit
    obtain ⟨-, -, -, -, -, -, -, -, -, h, -⟩ :=
      Config.syncKeys_preserves (Config.applyEnv Config.Env.empty c0)
    rw [h]
    rfl
  have hurl_ne : (Config.postInit Config.Env.empty c0).api_url ≠ "" := by
    unfold Config.postInit
    rw [(Config.syncKeys_preserves _).1]
    show (if c0.api_url = "" then "http://localhost:4000" else c0.api_url) ≠ ""
    split_ifs with h
    · decide
    · exact h
  exact Config.round_trip_core (Config.postInit Config.Env.empty c0)
    hurl_ne
    (Config.syncKeys_key_nonempty (Config.applyEnv Config.Env.empty c0))
    (Config.syncKeys_headD (Config.applyEnv Config.Env.empty c0))
    (by rw [hextra]; exact hnodup)
    (by rw [hextra]; exact hdisj)

/-- C10 counterexample to the claim as stated: an `extra` entry under the
known key `api_url` overwrites the field in `to_dict`, so the round trip
changes `api_url` and drops the entry from `extra` instead of routing it
back. -/
theorem C10_round_trip_counterexample :
    (Config.from_dict Config.Env.empty
      (Config.to_dict (Config.postInit Config.Env.empty
        { extra := [("api_url", J.str "x")] }))).api_url = "x" ∧
    (Config.postInit Config.Env.empty
      { extra := [("api_url", J.str "x")] }).api_url = "http://localhost:4000" ∧
    ("x" : String) ≠ "http://localhost:4000" ∧
    (Config.from_dict Config.Env.empty
      (Config.to_dict (Config.postInit Config.Env.empty
        { extra := [("api_url", J.str "x")] }))).extra = [] := by
  refine ⟨by decide, by decide, by decide, rfl⟩

/-- Witness for C10 on a concrete config with a benign `extra`. -/
theorem C10_round_trip_witness :
    (Config.from_dict Config.Env.empty
      (Config.to_dict (Config.postInit Config.Env.empty
        { api_key := "k", extra := [("note", J.str "n")] }))).api_key =
      (Config.postInit Config.Env.empty
        { api_key := "k", extra := [("note", J.str "n")] }).api_key ∧
    (Config.from_dict Config.Env.empty
      (Config.to_dict (Config.postInit Config.Env.empty
        { api_key := "k", extra := [("note", J.str "n")] }))).extra =
      (Config.postInit Config.Env.empty
        { api_key := "k", extra := [("note", J.str "n")] }).extra := by
  have h := C10_round_trip { api_key := "k", extra := [("note", J.str "n")] }
    (by decide) (by decide)
  exact ⟨h.2.1, h.2.2.2.2.2.2.2.2.2.2.2⟩

namespace DirectAgent

/-- The closing delimiter: newline followed by three backticks. -/
def closePat : List Char := ['\n', tick, tick, tick]

lemma takeUntilClose_some {l c : List Char} (h : takeUntilClose l = some c) :
    c = l.take c.length ∧ (l.drop c.length).take 4 = closePat := by
  induction l generalizing c with
  | nil => simp [takeUntilClose] at h
  | cons a cs ih =>
    unfold takeUntilClose at h
    split at h
    case isTrue hcl =>
      obtain rfl : c = [] := by simpa using h
      simp [closePat, hcl.1, hcl.2]
    case isFalse hcl =>
      obtain ⟨c', hc', rfl⟩ := Option.map_eq_some'.mp h
      obtain ⟨h1, h2⟩ := ih hc'
      refine ⟨?_, ?_⟩
      · simpa using h1
      · simpa using h2

lemma takeUntilClose_none {l : List Char} (h : takeUntilClose l = none) :
    ∀ i, (l.drop i).take 4 ≠ closePat := by
  induction l with
  | nil =>
    intro i
    simp [closePat]
  | cons a cs ih =>
    unfold takeUntilClose at h
    split at h
    case isTrue hcl => simp at h
    case isFalse hcl =>
      have hcs : takeUntilClose cs = none := by
        cases hx : takeUntilClose cs with
        | none => rfl
        | some c => rw [hx] at h; simp at h
      intro i
      cases i with
      | zero =>
        intro habs
        simp only [List.drop_zero, closePat] at habs
        have : a = '\n' ∧ cs.take 3 = [tick, tick, tick] := by
          have hlen : (a :: cs).take 4 = a :: cs.take 3 := rfl
          rw [hlen] at habs
          exact ⟨by injection habs, by injection habs⟩
        exact hcl this
      | succ i =>
        exact ih hcs i

lemma nlStarts_mem {l : List Char} {q : Nat} :
    q ∈ nlStarts l ↔ ((l.take q).all Config.isPySpace ∧ l.get? q = some '\n') := by
  induction l generalizing q with
  | nil => simp [nlStarts]
  | cons a cs ih =>
    unfold nlStarts
    by_cases ha : a = '\n'
    · subst ha
      rw [if_pos rfl]
      cases q with
      | zero => simp
      | succ q =>
        constructor
        · intro hmem'
          rcases List.mem_cons.mp hmem' with h0 | hmem'
          · omega
          · obtain ⟨q', hq', heq⟩ := List.mem_map.mp hmem'
            obtain rfl : q' = q := by omega
            have := ih.mp hq'
            simpa [List.all_cons, Config.isPySpace] using this
        · intro ⟨hall, hget⟩
          apply List.mem_cons.mpr
          right
          apply List.mem_map.mpr
          have hall' : (cs.take q).all Config.isPySpace := by
            simp only [List.take_succ_cons, List.all_cons, Bool.and_eq_true] at hall
            exact hall.2
          exact ⟨q, ih.mpr ⟨hall', by simpa using hget⟩, rfl⟩
    · rw [if_neg ha]
      by_cases hws : Config.isPySpace a
      · rw [if_pos hws]
        cases q with
        | zero =>
          constructor
          · intro hmem'
            obtain ⟨q', _, heq⟩ := List.mem_map.mp hmem'
            omega
          · intro ⟨_, hget⟩
            exact absurd (by injection hget) ha
        | succ q =>
          constructor
          · intro hmem'
            obtain ⟨q', hq', heq⟩ := List.mem_map.mp hmem'
            obtain rfl : q' = q := by omega
            have := ih.mp hq'
            simpa [List.all_cons, hws] using this
          · intro ⟨hall, hget⟩
            apply List.mem_map.mpr
            have hall' : (cs.take q).all Config.isPySpace := by
              simp only [List.take_succ_cons, List.all_cons, Bool.and_eq_true] at hall
              exact hall.2
            exact ⟨q, ih.mpr ⟨hall', by simpa using hget⟩, rfl⟩
      · rw [if_neg hws]
        simp only [List.not_mem_nil, false_iff]
        intro ⟨hall, hget⟩
        cases q with
        | zero =>
          exact ha (by simpa using hget)
        | succ q =>
          have : Config.isPySpace a = true := by
            simp only [List.take_succ_cons, List.all_cons, Bool.and_eq_true] at hall
            exact hall.1
          exact hws this

lemma nlStarts_sorted (l : List Char) : List.Pairwise (· < ·) (nlStarts l) := by
  induction l with
  | nil => simp [nlStarts]
  | cons a cs ih =>
    unfold nlStarts
    split_ifs with h1 h2
    · refine List.Pairwise.cons ?_ (ih.map _ (by omega))
      intro y hy
      simp only [List.mem_map] at hy
      obtain ⟨x, _, rfl⟩ := hy
      omega
    · exact ih.map _ (by omega)
    · exact List.Pairwise.nil

lemma tryStarts_spec {T : List Char} {js : List Nat} {c : List Char}
    (hsort : List.Pairwise (· > ·) js)
    (h : tryStarts T js = some c) :
    ∃ j ∈ js, takeUntilClose (T.drop (j + 1)) = some c ∧
      ∀ j' ∈ js, j' > j → takeUntilClose (T.drop (j' + 1)) = none := by
  induction js with
  | nil => simp [tryStarts] at h
  | cons j js ih =>
    unfold tryStarts at h
    cases hx : takeUntilClose (T.drop (j + 1)) with
    | some c' =>
      rw [hx] at h
      obtain rfl : c' = c := by simpa using h
      refine ⟨j, List.mem_cons_self _ _, hx, ?_⟩
      intro j' hj' hgt
      rcases List.mem_cons.mp hj' with rfl | hmem
      · omega
      · have := (List.pairwise_cons.mp hsort).1 j' hmem
        omega
    | none =>
      rw [hx] at h
      obtain ⟨j0, hj0, hsome, hfail⟩ := ih (List.pairwise_cons.mp hsort).2 h
      refine ⟨j0, List.mem_cons_of_mem _ hj0, hsome, ?_⟩
      intro j' hj' hgt
      rcases List.mem_cons.mp hj' with rfl | hmem
      · exact hx
      · exact hfail j' hmem hgt

lemma mem_takeWhile_idx {l : List Char} {p : Char → Bool} {a : Char}
    (h : a ∈ l.takeWhile p) :
    ∃ r, (l.take r).all p ∧ l.get? r = some a := by
  induction l with
  | nil => simp at h
  | cons b cs ih =>
    rw [List.takeWhile_cons] at h
    split at h
    case isTrue hb =>
      rcases List.mem_cons.mp h with rfl | hmem
      · exact ⟨0, by simp, rfl⟩
      · obtain ⟨r, hall, hget⟩ := ih hmem
        exact ⟨r + 1, by simpa [List.all_cons, hb] using hall, by simpa using hget⟩
    case isFalse => simp at h

lemma matchAfterTicks_inv {rest c : List Char}
    (h : matchAfterTicks rest = some c) :
    '\n' ∉ c.takeWhile Config.isPySpace := by
  unfold matchAfterTicks at h
  generalize hT :
    (if rest.take 4 = "bash".toList then rest.drop 4
     else if rest.take 2 = "sh".toList then rest.drop 2
     else rest) = T at h
  intro hmem
  have hsort : List.Pairwise (· > ·) (nlStarts T).reverse := by
    rw [List.pairwise_reverse]
    exact (nlStarts_sorted T).imp (fun {a b} hab => hab)
  obtain ⟨j, hjmem, hsome, hfail⟩ := tryStarts_spec hsort h
  have hjnl : j ∈ nlStarts T := List.mem_reverse.mp hjmem
  obtain ⟨hjall, hjget⟩ := nlStarts_mem.mp hjnl
  obtain ⟨hcpre, hclose⟩ := takeUntilClose_some hsome
  obtain ⟨r, hrall, hrget⟩ := mem_takeWhile_idx hmem
  have hrlt : r < c.length := List.get?_eq_some.mp hrget |>.1
  -- the newline sits at absolute position j + 1 + r of T
  have hgetT : T.get? (j + 1 + r) = some '\n' := by
    have h1 : c.get? r = (T.drop (j + 1)).get? r := by
      conv_lhs => rw [hcpre]
      exact List.get?_take hrlt
    rw [h1, List.get?_drop] at hrget
    exact hrget
  -- everything before it is whitespace
  have htake : (T.take (j + 1 + r)).all Config.isPySpace := by
    rw [show j + 1 + r = (j + 1) + r from rfl, List.take_add]
    simp only [List.all_append, Bool.and_eq_true]
    refine ⟨?_, ?_⟩
    · rw [List.take_succ]
      simp only [List.all_append, Bool.and_eq_true]
      refine ⟨hjall, ?_⟩
      have hje : T[j]? = some '\n' := by
        rw [← List.get?_eq_getElem?]
        exact hjget
      rw [hje]
      decide
    · have h2 : (T.drop (j + 1)).take r = c.take r := by
        conv_rhs => rw [hcpre]
        rw [List.take_take, Nat.min_eq_left (Nat.le_of_lt hrlt)]
      rw [h2]
      exact hrall
  -- so j + 1 + r is a later candidate, which must have failed
  have hq'mem : (j + 1 + r) ∈ nlStarts T := nlStarts_mem.mpr ⟨htake, hgetT⟩
  have hnone := hfail (j + 1 + r) (List.mem_reverse.mpr hq'mem) (by omega)
  -- yet the closing fence found for j also closes the j + 1 + r candidate
  have habs := takeUntilClose_none hnone (c.length - (r + 1))
  apply habs
  have hdd : (T.drop (j + 1 + r + 1)).drop (c.length - (r + 1)) =
      (T.drop (j + 1)).drop c.length := by
    rw [List.drop_drop, List.drop_drop]
    congr 1
    omega
  rw [hdd]
  exact hclose

lemma findFence_inv {l c : List Char} (h : findFence l = some c) :
    '\n' ∉ c.takeWhile Config.isPySpace := by
  induction l with
  | nil => simp [findFence] at h
  | cons a cs ih =>
    unfold findFence at h
    split at h
    case isTrue =>
      cases hx : matchAfterTicks (cs.drop 2) with
      | some c' =>
        rw [hx] at h
        obtain rfl : c' = c := by simpa using h
        exact matchAfterTicks_inv hx
      | none =>
        rw [hx] at h
        exact ih h
    case isFalse =>
      exact ih h

lemma pyStrip_eq (l : List Char) :
    Config.pyStrip l = List.rdropWhile Config.isPySpace (l.dropWhile Config.isPySpace) := rfl

lemma dropWhile_rdropWhile_fix {p : Char → Bool} {x : List Char}
    (hx : x.dropWhile p = x) : (x.rdropWhile p).dropWhile p = x.rdropWhile p := by
  cases hr : x.rdropWhile p with
  | nil => rfl
  | cons a t =>
    obtain ⟨t2, ht2⟩ := (List.rdropWhile_prefix p x)
    rw [hr] at ht2
    have hpa : ¬ p a := by
      intro hpa
      rw [← ht2] at hx
      rw [List.cons_append, List.dropWhile_cons_of_pos hpa] at hx
      have hlen : (List.dropWhile p (t ++ t2)).length = (a :: (t ++ t2)).length :=
        congrArg _ hx
      rw [List.length_cons] at hlen
      have hle := (List.dropWhile_sublist (l := t ++ t2) p).length_le
      omega
    rw [List.dropWhile_cons_of_neg hpa]

lemma pyStrip_idem (l : List Char) :
    Config.pyStrip (Config.pyStrip l) = Config.pyStrip l := by
  rw [pyStrip_eq, pyStrip_eq]
  rw [dropWhile_rdropWhile_fix (List.dropWhile_idempotent _ _)]
  rw [List.rdropWhile_idempotent]

lemma rdropWhile_append_all {p : Char → Bool} (a w : List Char)
    (hw : ∀ x ∈ w, p x) : (a ++ w).rdropWhile p = a.rdropWhile p := by
  unfold List.rdropWhile
  rw [List.reverse_append, List.dropWhile_append_of_pos]
  intro x hx
  exact hw x (List.mem_reverse.mp hx)

lemma pyStrip_append_ws (u w : List Char) (hw : ∀ x ∈ w, Config.isPySpace x) :
    Config.pyStrip (u ++ w) = Config.pyStrip u := by
  rw [pyStrip_eq, pyStrip_eq, List.dropWhile_append]
  split
  case isTrue h =>
    have hu : u.dropWhile Config.isPySpace = [] := by
      simpa using h
    have hwnil : w.dropWhile Config.isPySpace = [] := List.dropWhile_eq_nil_iff.mpr hw
    rw [hwnil, hu]
  case isFalse h =>
    exact rdropWhile_append_all _ _ hw

lemma pyStrip_ws_append (w u : List Char) (hw : ∀ x ∈ w, Config.isPySpace x) :
    Config.pyStrip (w ++ u) = Config.pyStrip u := by
  rw [pyStrip_eq, pyStrip_eq, List.dropWhile_append_of_pos hw]

lemma firstLine_eq_self {l : List Char} (h : '\n' ∉ l) : firstLine l = l := by
  induction l with
  | nil => rfl
  | cons a cs ih =>
    unfold firstLine
    rw [List.takeWhile_cons_of_pos]
    · rw [show cs.takeWhile (fun c => c ≠ '\n') = firstLine cs from rfl,
        ih (fun hm => h (List.mem_cons_of_mem _ hm))]
    · simp only [ne_eq, decide_eq_true_eq]
      intro he
      exact h (he ▸ List.mem_cons_self _ _)

lemma firstLine_append_none {u v : List Char} (h : '\n' ∉ u) :
    firstLine (u ++ v) = u ++ firstLine v := by
  induction u with
  | nil => rfl
  | cons a cs ih =>
    unfold firstLine
    rw [List.cons_append, List.takeWhile_cons_of_pos]
    · rw [show ((cs ++ v).takeWhile (fun c => c ≠ '\n')) = firstLine (cs ++ v) from rfl,
        ih (fun hm => h (List.mem_cons_of_mem _ hm))]
      rfl
    · simp only [ne_eq, decide_eq_true_eq]
      intro he
      exact h (he ▸ List.mem_cons_self _ _)

lemma firstLine_append_mem {u : List Char} (v : List Char) (h : '\n' ∈ u) :
    firstLine (u ++ v) = firstLine u := by
  induction u with
  | nil => simp at h
  | cons a cs ih =>
    unfold firstLine
    by_cases ha : a = '\n'
    · subst ha
      rw [List.cons_append, List.takeWhile_cons_of_neg, List.takeWhile_cons_of_neg] <;>
        simp
    · rw [List.cons_append, List.takeWhile_cons_of_pos, List.takeWhile_cons_of_pos]
      · rw [show ((cs ++ v).takeWhile (fun c => c ≠ '\n')) = firstLine (cs ++ v) from rfl,
          show (cs.takeWhile (fun c => c ≠ '\n')) = firstLine cs from rfl,
          ih (by rcases List.mem_cons.mp h with h0 | h0; exact absurd h0.symm ha; exact h0)]
      · simpa using ha
      · simpa using ha

lemma pyStrip_firstLine_strip (c : List Char) :
    Config.pyStrip (firstLine (Config.pyStrip c)) =
    Config.pyStrip (firstLine (c.dropWhile Config.isPySpace)) := by
  have hy : Config.pyStrip c =
      (c.dropWhile Config.isPySpace).rdropWhile Config.isPySpace := rfl
  have hsplit : c.dropWhile Config.isPySpace =
      (c.dropWhile Config.isPySpace).rdropWhile Config.isPySpace ++
      (c.dropWhile Config.isPySpace).rtakeWhile Config.isPySpace := by
    unfold List.rdropWhile List.rtakeWhile
    rw [← List.reverse_append, List.takeWhile_append_dropWhile, List.reverse_reverse]
  by_cases hnl : '\n' ∈ (c.dropWhile Config.isPySpace).rdropWhile Config.isPySpace
  · rw [hy]
    conv_rhs => rw [hsplit]
    rw [firstLine_append_mem _ hnl]
  · rw [hy, firstLine_eq_self hnl]
    conv_rhs => rw [hsplit]
    rw [firstLine_append_none hnl]
    rw [pyStrip_append_ws]
    intro x hx
    exact List.mem_rtakeWhile_imp ((List.takeWhile_sublist _).subset hx)

lemma pyStrip_firstLine_dropWhile {c : List Char}
    (h : '\n' ∉ c.takeWhile Config.isPySpace) :
    Config.pyStrip (firstLine (c.dropWhile Config.isPySpace)) =
    Config.pyStrip (firstLine c) := by
  have hsplit : c = c.takeWhile Config.isPySpace ++ c.dropWhile Config.isPySpace :=
    (List.takeWhile_append_dropWhile _ _).symm
  conv_rhs => rw [hsplit]
  rw [firstLine_append_none h, pyStrip_ws_append]
  intro x hx
  exact List.mem_takeWhile_imp hx

end DirectAgent

/-- C6: for every LLM response string, `_extract_command` returns the
stripped first line of the capture of the first fenced code block the
pattern matches (triple backtick, optionally tagged `bash` or `sh`, per the
engine's leftmost-match/greedy-whitespace/lazy-capture semantics embodied in
`findFence`), and returns `none` — forwarding no command — when no such
block matches. -/
theorem C6_extract_command (response : String) :
    DirectAgent.extract_command response =
      (DirectAgent.findFence response.toList).map
        (fun c => String.mk (Config.pyStrip (DirectAgent.firstLine c))) := by
  unfold DirectAgent.extract_command
  cases hf : DirectAgent.findFence response.toList with
  | none => rfl
  | some c =>
    have hinv := DirectAgent.findFence_inv hf
    simp only [Option.map]
    congr 1
    show (if (Config.pyStrip c).contains '\n'
          then String.mk (Config.pyStrip (DirectAgent.firstLine (Config.pyStrip c)))
          else String.mk (Config.pyStrip c)) =
      String.mk (Config.pyStrip (DirectAgent.firstLine c))
    rw [← apply_ite String.mk]
    congr 1
    by_cases hcont : (Config.pyStrip c).contains '\n'
    · rw [if_pos hcont, DirectAgent.pyStrip_firstLine_strip,
        DirectAgent.pyStrip_firstLine_dropWhile hinv]
    · rw [if_neg hcont]
      have hnm : '\n' ∉ Config.pyStrip c := by
        intro hm
        exact hcont (List.elem_iff.mpr hm)
      conv_lhs =>
        rw [← DirectAgent.pyStrip_idem c,
          show Config.pyStrip c = DirectAgent.firstLine (Config.pyStrip c) from
            (DirectAgent.firstLine_eq_self hnm).symm]
      rw [DirectAgent.pyStrip_firstLine_strip,
        DirectAgent.pyStrip_firstLine_dropWhile hinv]
